import Mathlib

/-!
Shallow embedding of the `ublock-webkit-filters` repository (Go) in Lean 4.

Strings are modelled as `List Char` (the repository only manipulates them at
the character level, and every string the claims mention is ASCII, where Go
byte indices and character indices coincide).  Go's fixed regular expressions
used with `ReplaceAllString` / `MatchString` are embedded as the direct
recursive scanners they denote.  Go string slicing (`s[i:j]`), which panics
when out of range, is modelled with `Option`; the parser is therefore written
in the `Option` monad and its totality is a theorem, not a triviality.

The single call into Go's standard library whose behaviour is not part of the
repository, `regexp.Compile` inside `ValidateRegex` (only its success or
failure is consulted), is modelled as an explicit Boolean input (`compileOk`),
instantiated at concrete regexes with the value Go's compiler produces there.
-/

namespace UBW

abbrev Str := List Char

/-- `strings.Contains` / regexp literal-substring match: `pat` occurs in `s`. -/
def isSubstr (pat : Str) : Str → Bool
  | [] => pat.isEmpty
  | c :: rest => pat.isPrefixOf (c :: rest) || isSubstr pat rest

/-- `strings.Index`: index of the first occurrence of `pat` in `s`. -/
def indexOfSubstr (pat : Str) : Str → Option Nat
  | [] => if pat.isEmpty then some 0 else none
  | c :: rest =>
    if pat.isPrefixOf (c :: rest) then some 0
    else (indexOfSubstr pat rest).map (· + 1)

/-- `strings.LastIndex(s, c)` for a one-character needle. -/
def lastIndexOfChar (c : Char) : Str → Option Nat
  | [] => none
  | a :: rest =>
    match lastIndexOfChar c rest with
    | some i => some (i + 1)
    | none => if a = c then some 0 else none

/-- `strings.TrimSuffix`. -/
def trimSuffix (s suf : Str) : Str :=
  if suf.isSuffixOf s then s.take (s.length - suf.length) else s

/-- `unicode.IsSpace`, restricted to the Latin-1 range (all inputs of interest
are ASCII). -/
def goIsSpace (c : Char) : Bool :=
  c = ' ' || c = '\t' || c = '\n' || c = '\r' ||
  c.toNat = 11 || c.toNat = 12 || c.toNat = 133 || c.toNat = 160

/-- `strings.TrimSpace`. -/
def trimSpace (s : Str) : Str :=
  ((s.dropWhile goIsSpace).reverse.dropWhile goIsSpace).reverse

/-- `strings.ToLower` (ASCII case mapping; all domains of interest are ASCII). -/
def toLowerStr (s : Str) : Str := s.map Char.toLower

/-- Go slice expression `s[i:j]`; `none` models the runtime panic when the
bounds are invalid. -/
def goSlice (s : Str) (i j : Nat) : Option Str :=
  if i ≤ j ∧ j ≤ s.length then some ((s.take j).drop i) else none

/-- Go slice expression `s[i:]`. -/
def goSliceFrom (s : Str) (i : Nat) : Option Str := goSlice s i s.length

/-- Go index expression `s[i]`; `none` models the runtime panic. -/
def goIndex (s : Str) (i : Nat) : Option Char := s.get? i

/-! ## regex.go : constants -/

/-- `restrSeparator` (regex.go): class the separator `^` translates to. -/
def restrSeparator : Str := "[^%.0-9a-z_-]".data

/-- `restrHostnameAnchor1` (regex.go). -/
def restrHostnameAnchor1 : Str := "^[a-z-]+://(?:[^/?#]+\\.)?".data

/-- `restrHostnameAnchor2` (regex.go). -/
def restrHostnameAnchor2 : Str := "^[a-z-]+://(?:[^/?#]+)?".data

/-! ## regex.go : the fixed regex operations, embedded as scanners -/

/-- `rePlainChars.ReplaceAllString(s, \$0)`: prefix every character of the
class `[.+?${}()|[\]\\]` with a backslash. -/
def escapePlainChars : Str → Str
  | [] => []
  | c :: rest =>
    (if c ∈ ['.', '+', '?', '$', '{', '}', '(', ')', '|', '[', ']', '\\']
     then ['\\', c] else [c]) ++ escapePlainChars rest

/-- `reSeparators.ReplaceAllString(s, restrSeparator)`: every `^` becomes the
separator class. -/
def replaceSeparators : Str → Str
  | [] => []
  | c :: rest =>
    (if c = '^' then restrSeparator else [c]) ++ replaceSeparators rest

/-- `reDanglingAsterisks.ReplaceAllString(s, "")`, i.e. the regex
`^\*+|\*+$`: remove the leading and the trailing run of asterisks. -/
def dropDanglingAsterisks (s : Str) : Str :=
  ((s.dropWhile (· = '*')).reverse.dropWhile (· = '*')).reverse

/-- Worker for `reAsterisks.ReplaceAllString(s, ".*")` (`inRun` records
whether the previous character was part of a run of asterisks). -/
def collapseAsterisksAux : Bool → Str → Str
  | _, [] => []
  | inRun, c :: rest =>
    if c = '*' then
      (if inRun then [] else ['.', '*']) ++ collapseAsterisksAux true rest
    else c :: collapseAsterisksAux false rest

/-- `reAsterisks.ReplaceAllString(s, ".*")`: each maximal run of `*` becomes
one `.*`. -/
def collapseAsterisks (s : Str) : Str := collapseAsterisksAux false s

/-- `ReplaceAllString` for a fixed two-character literal regex `ab`
(used for `\w`, `\W`, `\d`, `\D`, `\s`, `\S`): non-overlapping, left to
right. -/
def replacePair (a b : Char) (rep : Str) : Str → Str
  | [] => []
  | [c] => [c]
  | c :: d :: rest =>
    if c = a ∧ d = b then rep ++ replacePair a b rep rest
    else c :: replacePair a b rep (d :: rest)

/-- Fuel-indexed worker for `reNumericQuantifierOpen.ReplaceAllString`:
each step consumes at least one character, so `s.length` fuel always
suffices (the fuel only makes the recursion structural). -/
def replaceOpenQuantAux : Nat → Str → Str
  | 0, s => s
  | _ + 1, [] => []
  | fuel + 1, c :: rest =>
    let ds := rest.takeWhile Char.isDigit
    if c = '{' ∧ ds ≠ [] ∧ [',', '\x7d'].isPrefixOf (rest.drop ds.length) then
      '+' :: replaceOpenQuantAux fuel (rest.drop (ds.length + 2))
    else c :: replaceOpenQuantAux fuel rest

/-- `reNumericQuantifierOpen.ReplaceAllString(s, "+")`, i.e. the regex
`\{[0-9]+,\}`: every occurrence of `{<digits>,}` becomes `+`. -/
def replaceOpenQuant (s : Str) : Str := replaceOpenQuantAux s.length s

/-- Does `reNumericQuantifierOpen` (`\{[0-9]+,\}`) match somewhere in `s`?
(Detector form of the rewrite above, used to state claims.) -/
def matchesOpenQuant : Str → Bool
  | [] => false
  | c :: rest =>
    let ds := rest.takeWhile Char.isDigit
    (c = '{' && !ds.isEmpty && [',', '\x7d'].isPrefixOf (rest.drop ds.length))
      || matchesOpenQuant rest

/-- Tail test for the optional `,<digits>` group of `reNumericQuantifier`,
after the comma: `<digits>}`. -/
def numQuantAfterComma (rest2 : Str) : Bool :=
  !(rest2.takeWhile Char.isDigit).isEmpty &&
    (rest2.drop (rest2.takeWhile Char.isDigit).length).head? = some '\x7d'

/-- Tail test for `reNumericQuantifier` given the leading digit run `ds` and
the remainder `after`: a closing brace, or a comma followed by digits and a
closing brace. -/
def numQuantAfterDigits (ds after : Str) : Bool :=
  !ds.isEmpty &&
    (after.head? = some '\x7d' ||
     (after.head? = some ',' && numQuantAfterComma (after.drop 1)))

/-- Tail test for `reNumericQuantifier` after an opening brace: `<digits>}`
or `<digits>,<digits>}`. -/
def numQuantTail (rest : Str) : Bool :=
  numQuantAfterDigits (rest.takeWhile Char.isDigit)
    (rest.drop (rest.takeWhile Char.isDigit).length)

/-- `reNumericQuantifier.MatchString`, i.e. the regex
`\{[0-9]+(,[0-9]+)?\}`: does `s` contain `{n}` or `{n,m}`? -/
def hasNumericQuantifier : Str → Bool
  | [] => false
  | c :: rest => (c = '{' && numQuantTail rest) || hasNumericQuantifier rest

/-- `reNonASCII.MatchString`, i.e. `[^\x00-\x7F]`. -/
def hasNonASCII (s : Str) : Bool := s.any (fun c => 127 < c.toNat)

/-- Does `s` contain the two-character sequence `ab`? (literal two-character
regex `MatchString`, used for `\b`, `\B`, `\w`, ...). -/
def containsPair (a b : Char) : Str → Bool
  | [] => false
  | [_] => false
  | c :: d :: rest => (c = a && d = b) || containsPair a b (d :: rest)

/-- `reWordBoundary.MatchString`, i.e. `\\[bB]`. -/
def hasWordBoundary (s : Str) : Bool :=
  containsPair '\\' 'b' s || containsPair '\\' 'B' s

/-- The six shorthand-class detectors of ValidateRegex (`reWordChar`,
`reNonWordChar`, `reDigitChar`, `reNonDigitChar`, `reSpaceChar`,
`reNonSpaceChar`). -/
def hasShorthandClass (s : Str) : Bool :=
  containsPair '\\' 'w' s || containsPair '\\' 'W' s ||
  containsPair '\\' 'd' s || containsPair '\\' 'D' s ||
  containsPair '\\' 's' s || containsPair '\\' 'S' s

/-! ## regex.go : expandCharacterClasses, PatternToRegex -/

/-- The characters of Go's `[ \t\n\r\f\v]` (space, tab, newline, carriage
return, form feed, vertical tab), in source order. -/
def spaceChars : Str := [' ', '\t', '\n', '\r', Char.ofNat 12, Char.ofNat 11]

/-- `expandCharacterClasses` (regex.go): replace shorthand classes with
explicit ones (negated forms first), then approximate `{n,}` with `+`. -/
def expandCharacterClasses (p : Str) : Str :=
  let p1 := replacePair '\\' 'W' ('[' :: '^' :: "a-zA-Z0-9_]".data) p
  let p2 := replacePair '\\' 'w' ('[' :: "a-zA-Z0-9_]".data) p1
  let p3 := replacePair '\\' 'D' ('[' :: '^' :: "0-9]".data) p2
  let p4 := replacePair '\\' 'd' ('[' :: "0-9]".data) p3
  let p5 := replacePair '\\' 'S' ('[' :: '^' :: spaceChars ++ [']']) p4
  let p6 := replacePair '\\' 's' ('[' :: spaceChars ++ [']']) p5
  replaceOpenQuant p6

/-- `PatternToRegex` (regex.go): convert an ABP/uBlock pattern to a
WebKit-compatible regex. -/
def PatternToRegex (pattern : Str) : Str :=
  if pattern = [] ∨ pattern = ['*'] then ".*".data
  else
    let hostAnchor := ['|', '|'].isPrefixOf pattern
    let leftAnchor := !hostAnchor && ['|'].isPrefixOf pattern
    let s1 := if hostAnchor then pattern.drop 2
              else if leftAnchor then pattern.drop 1 else pattern
    let rightAnchor := ['|'].isSuffixOf s1
    let s2 := if rightAnchor then s1.take (s1.length - 1) else s1
    if ['/'].isPrefixOf s2 ∧ ['/'].isSuffixOf s2 ∧ 2 < s2.length then
      expandCharacterClasses ((s2.drop 1).take (s2.length - 2))
    else
      let r1 := escapePlainChars s2
      let r2 := replaceSeparators r1
      let r3 := dropDanglingAsterisks r2
      let r4 := collapseAsterisks r3
      let r5 :=
        if hostAnchor then
          (if ['\\', '.'].isPrefixOf r4 then restrHostnameAnchor2
           else restrHostnameAnchor1) ++ r4
        else if leftAnchor then '^' :: r4 else r4
      if rightAnchor then r5 ++ ['$'] else r5

/-! ## regex.go : containsDisjunction, ValidateRegex -/

/-- Worker for `containsDisjunction` (regex.go): scan tracking the
"inside character class" and "previous character was an escape" booleans. -/
def containsDisjunctionAux : Bool → Bool → Str → Bool
  | _, _, [] => false
  | inClass, escaped, ch :: rest =>
    if escaped then containsDisjunctionAux inClass false rest
    else if ch = '\\' then containsDisjunctionAux inClass true rest
    else if ch = '[' ∧ !inClass then containsDisjunctionAux true escaped rest
    else if ch = ']' ∧ inClass then containsDisjunctionAux false escaped rest
    else if ch = '|' ∧ !inClass then true
    else containsDisjunctionAux inClass escaped rest

/-- `containsDisjunction` (regex.go): is there a `|` outside character
classes? -/
def containsDisjunction (p : Str) : Bool := containsDisjunctionAux false false p

/-- The checks of `ValidateRegex` that follow the `regexp.Compile` call:
unsupported assertion/group substrings, disjunctions, numeric quantifiers,
non-ASCII characters, word boundaries, residual shorthand classes. -/
def ValidateRegexChecks (p : Str) : Bool :=
  !isSubstr "(?<!".data p &&
  !isSubstr "(?<=".data p &&
  !isSubstr "(?=".data p &&
  !isSubstr "(?!".data p &&
  !isSubstr ['\\', 'p', '{'] p &&
  !isSubstr ['\\', 'P', '{'] p &&
  !isSubstr "(?P<".data p &&
  !isSubstr "(?<".data p &&
  !containsDisjunction p &&
  !hasNumericQuantifier p &&
  !hasNonASCII p &&
  !hasWordBoundary p &&
  !hasShorthandClass p

/-- `ValidateRegex` (regex.go).  `compileOk` stands for the success of the
`regexp.Compile(pattern)` call (Go standard library, outside this
repository); the function returns `false` on a compile error and otherwise
runs the dialect checks. -/
def ValidateRegex (compileOk : Bool) (p : Str) : Bool :=
  compileOk && ValidateRegexChecks p

/-- `PatternEndsWithSeparator` (regex.go). -/
def PatternEndsWithSeparator (pattern : Str) : Bool :=
  ['^'].isSuffixOf (trimSuffix pattern ['|'])

/-- `PatternToRegexEndAnchor` (regex.go): strip the trailing `^` and `|`,
translate, and append `$` if absent. -/
def PatternToRegexEndAnchor (pattern : Str) : Str :=
  let s := trimSuffix (trimSuffix pattern ['|']) ['^']
  let regex := PatternToRegex s
  if ['$'].isSuffixOf regex then regex else regex ++ ['$']

/-! ## models/filter.go -/

/-- `models.FilterType`. -/
inductive FilterType where
  | comment
  | network
  | exception
  | cosmetic
  | cosmeticException
  | unsupported
deriving DecidableEq, Repr

/-- `models.FilterOptions` (Go zero values as defaults; `*bool` is
`Option Bool`, `nil` slices are `[]`). -/
structure FilterOptions where
  thirdParty : Option Bool := none
  resourceTypes : List Str := []
  domains : List Str := []
  excludeDomains : List Str := []
  matchCase : Bool := false
  important : Bool := false
deriving DecidableEq, Repr

/-- `models.Filter` (Go zero values as defaults; the zero `FilterType` is
`Comment`). -/
structure Filter where
  type : FilterType := .comment
  raw : Str := []
  pattern : Str := []
  selector : Str := []
  domains : List Str := []
  options : FilterOptions := {}
deriving DecidableEq, Repr

/-- `models.WebKitTrigger`. -/
structure WebKitTrigger where
  urlFilter : Str := []
  urlFilterIsCaseSensitive : Option Bool := none
  resourceType : List Str := []
  loadType : List Str := []
  ifDomain : List Str := []
  unlessDomain : List Str := []
deriving DecidableEq, Repr

/-- `models.WebKitAction`. -/
structure WebKitAction where
  type : Str := []
  selector : Str := []
deriving DecidableEq, Repr

/-- `models.WebKitRule`. -/
structure WebKitRule where
  trigger : WebKitTrigger := {}
  action : WebKitAction := {}
deriving DecidableEq, Repr

/-! ## parser.go (src/unnamed/part_001) -/

/-- The `Filter` value returned by `(*Parser).skip`: only the type is set. -/
def skipFilter : Filter := { type := .unsupported }

/-- `containsProcedural` (parser.go). -/
def containsProcedural (line : Str) : Bool :=
  [":has(", ":has-text(", ":xpath(", ":matches-css(",
   ":matches-attr(", ":min-text-length(", ":not(",
   ":upward(", ":remove(", ":style("].any
    (fun p => isSubstr p.data line)

/-- `parseDomainList` (parser.go): split on commas, trim, drop empties. -/
def parseDomainList (s : Str) : List Str :=
  if s = [] then []
  else ((s.splitOn ',').map trimSpace).filter (· ≠ [])

/-- `parseDomainOption` (parser.go): split `domain=` value on `|`, routing
`~`-marked tokens to the exclude list. -/
def parseDomainOption (s : Str) : List Str × List Str :=
  let toks := ((s.splitOn '|').map trimSpace).filter (· ≠ [])
  (toks.filter (fun d => !(['~'].isPrefixOf d)),
   (toks.filter (fun d => ['~'].isPrefixOf d)).map (List.drop 1))

/-- `mapResourceType` (parser.go): the empty string models Go's `""`
("not a resource type"). -/
def mapResourceType (s0 : Str) : Str :=
  let s := if ['~'].isPrefixOf s0 then s0.drop 1 else s0
  if s = "script".data then "script".data
  else if s = "image".data ∨ s = "img".data then "image".data
  else if s = "stylesheet".data ∨ s = "css".data then "style-sheet".data
  else if s = "font".data then "font".data
  else if s = "media".data then "media".data
  else if s = "xmlhttprequest".data ∨ s = "xhr".data then "raw".data
  else if s = "subdocument".data ∨ s = "frame".data then "document".data
  else if s = "object".data ∨ s = "object-subrequest".data then "raw".data
  else if s = "ping".data ∨ s = "beacon".data then "raw".data
  else if s = "popup".data then "popup".data
  else if s = "other".data then "raw".data
  else if s = "websocket".data then "raw".data
  else if s = "document".data ∨ s = "doc".data then "document".data
  else []

/-- One iteration of the option loop in `parseOptions` (parser.go). -/
def parseOptionPart (opts : FilterOptions) (part0 : Str) : FilterOptions :=
  let part := trimSpace part0
  if part = [] then opts
  else if part = "third-party".data ∨ part = "3p".data then
    { opts with thirdParty := some true }
  else if part = "~third-party".data ∨ part = "~3p".data ∨
      part = "first-party".data ∨ part = "1p".data then
    { opts with thirdParty := some false }
  else if part = "match-case".data then { opts with matchCase := true }
  else if part = "important".data then { opts with important := true }
  else if "domain=".data.isPrefixOf part then
    let (inc, exc) := parseDomainOption (part.drop 7)
    { opts with domains := inc, excludeDomains := exc }
  else
    let rt := mapResourceType part
    if rt ≠ [] then { opts with resourceTypes := opts.resourceTypes ++ [rt] }
    else opts

/-- `parseOptions` (parser.go). -/
def parseOptions (s : Str) : FilterOptions :=
  (s.splitOn ',').foldl parseOptionPart {}

/-- `hasUnsupportedOptions` (parser.go): substring containment of the fixed
`<option>=` markers in the option text. -/
def hasUnsupportedOptions (s : Str) : Bool :=
  ["redirect=", "redirect-rule=",
   "csp=", "removeparam=", "replace=",
   "header=", "method=", "to=",
   "permissions=", "uritransform="].any (fun u => isSubstr u.data s)

/-- The `Filter` `parseNetwork` (parser.go) builds when no option split
happens: the whole line is the pattern, the options stay zero. -/
def noSplitFilter (line : Str) (isException : Bool) : Filter :=
  { type := if isException then .exception else .network,
    raw := line, pattern := line }

/-- The tail of `parseNetwork` (parser.go) once the option text after the
dollar at `idx` is known: skip the split for a regex anchor, otherwise cut
the pattern and check for unsupported options. -/
def parseNetworkAfterSplit (line optPart : Str) (isException : Bool)
    (idx : Nat) : Option Filter :=
  if ['/'].isPrefixOf optPart then some (noSplitFilter line isException)
  else
    match goSlice line 0 idx with
    | none => none
    | some pat =>
      if hasUnsupportedOptions optPart then some skipFilter
      else
        some { type := if isException then .exception else .network,
               raw := line, pattern := pat,
               options := parseOptions optPart }

/-- The branch of `parseNetwork` (parser.go) for a found last dollar at
`idx`: check the escape (`line[idx-1] == '\\'` unless `idx = 0`), then
slice the option text. -/
def parseNetworkSplit (line : Str) (isException : Bool) (idx : Nat) :
    Option Filter :=
  match (if idx = 0 then some false
         else (goIndex line (idx - 1)).map (fun c => c == '\\')) with
  | none => none
  | some true => some (noSplitFilter line isException)
  | some false =>
    match goSliceFrom line (idx + 1) with
    | none => none
    | some optPart => parseNetworkAfterSplit line optPart isException idx

/-- `parseNetwork` (parser.go).  Go string indexing and slicing is
`Option`-valued here (a `none` would be a runtime panic in Go). -/
def parseNetwork (line : Str) (isException : Bool) : Option Filter :=
  match lastIndexOfChar '$' line with
  | none => some (noSplitFilter line isException)
  | some idx => parseNetworkSplit line isException idx

/-- `parseCosmetic` (parser.go). -/
def parseCosmetic (line : Str) (sepIdx : Nat) (isException : Bool) :
    Option Filter :=
  match (if 0 < sepIdx then (goSlice line 0 sepIdx).map parseDomainList
         else some []) with
  | none => none
  | some domains =>
    match goSliceFrom line (sepIdx + (if isException then 3 else 2)) with
    | none => none
    | some selector =>
      some { type := if isException then .cosmeticException else .cosmetic,
             raw := line, selector := selector, domains := domains }

/-- `parseLine` (parser.go): ordered classification of one raw line. -/
def parseLine (line : Str) : Option Filter :=
  if "!".data.isPrefixOf line ∨ "[".data.isPrefixOf line then
    some { type := .comment, raw := line }
  else if isSubstr "##+js(".data line ∨ isSubstr "#@#+js(".data line then
    some skipFilter
  else if isSubstr "##^".data line ∨ isSubstr "#@#^".data line then
    some skipFilter
  else if containsProcedural line then
    some skipFilter
  else
    match indexOfSubstr "##".data line, isSubstr "#@#".data line with
    | some idx, false => parseCosmetic line idx false
    | _, _ =>
      match indexOfSubstr "#@#".data line with
      | some idx2 => parseCosmetic line idx2 true
      | none =>
        if "@@".data.isPrefixOf line then
          match goSliceFrom line 2 with
          | none => none
          | some rest => parseNetwork rest true
        else parseNetwork line false

/-! ## converter.go -/

/-- `normalizeDomain` (converter.go): lower-case, trim, and add a `*`
for subdomain matching unless already wildcard- or dot-prefixed. -/
def normalizeDomain (d0 : Str) : Str :=
  let d := toLowerStr (trimSpace d0)
  if !(['*'].isPrefixOf d) && !(['.'].isPrefixOf d) then '*' :: d else d

/-- `normalizeDomains` (converter.go). -/
def normalizeDomains (domains : List Str) : List Str :=
  domains.map normalizeDomain

/-- The `loadType` computation of `convertNetwork` (converter.go) from the
`thirdParty` tri-state. -/
def networkLoadType (o : FilterOptions) : List Str :=
  match o.thirdParty with
  | some true => ["third-party".data]
  | some false => ["first-party".data]
  | none => []

/-- The action type of `convertNetwork` (converter.go): `block`, or
`ignore-previous-rules` for exceptions. -/
def networkActionType (isException : Bool) : Str :=
  if isException then "ignore-previous-rules".data else "block".data

/-- One network `WebKitRule` as built by `convertNetwork` (converter.go):
base trigger from the filter options, the given url filter, and the given
domain fields. -/
def networkRule (f : Filter) (isException : Bool) (url : Str)
    (ifD unlessD : List Str) : WebKitRule :=
  { trigger :=
      { urlFilter := url,
        urlFilterIsCaseSensitive :=
          if f.options.matchCase then some true else none,
        resourceType := f.options.resourceTypes,
        loadType := networkLoadType f.options,
        ifDomain := ifD,
        unlessDomain := unlessD },
    action := { type := networkActionType isException } }

/-- `convertNetwork` (converter.go).  `compileOk` models the success of the
Go-stdlib `regexp.Compile` call inside `ValidateRegex` for a given regex
string.  The returned string is the skip reason (`[]` is Go's `""`).
The conditional domain fields in the single-rule branch reproduce the
source's conditional field assignments. -/
def convertNetwork (compileOk : Str → Bool) (f : Filter)
    (isException : Bool) : List WebKitRule × Str :=
  if !ValidateRegex (compileOk (PatternToRegex f.pattern))
      (PatternToRegex f.pattern) then
    ([], "invalid-regex".data)
  else if !f.options.domains.isEmpty && !f.options.excludeDomains.isEmpty
  then
    if PatternEndsWithSeparator f.pattern &&
        ValidateRegex (compileOk (PatternToRegexEndAnchor f.pattern))
          (PatternToRegexEndAnchor f.pattern) then
      ([networkRule f isException (PatternToRegex f.pattern)
          (normalizeDomains f.options.domains) [],
        networkRule f isException (PatternToRegexEndAnchor f.pattern)
          (normalizeDomains f.options.domains) [],
        networkRule f isException (PatternToRegex f.pattern)
          [] (normalizeDomains f.options.excludeDomains),
        networkRule f isException (PatternToRegexEndAnchor f.pattern)
          [] (normalizeDomains f.options.excludeDomains)], [])
    else
      ([networkRule f isException (PatternToRegex f.pattern)
          (normalizeDomains f.options.domains) [],
        networkRule f isException (PatternToRegex f.pattern)
          [] (normalizeDomains f.options.excludeDomains)], [])
  else
    if PatternEndsWithSeparator f.pattern &&
        ValidateRegex (compileOk (PatternToRegexEndAnchor f.pattern))
          (PatternToRegexEndAnchor f.pattern) then
      ([networkRule f isException (PatternToRegex f.pattern)
          (if f.options.domains.isEmpty then []
           else normalizeDomains f.options.domains)
          (if f.options.excludeDomains.isEmpty then []
           else normalizeDomains f.options.excludeDomains),
        networkRule f isException (PatternToRegexEndAnchor f.pattern)
          (if f.options.domains.isEmpty then []
           else normalizeDomains f.options.domains)
          (if f.options.excludeDomains.isEmpty then []
           else normalizeDomains f.options.excludeDomains)], [])
    else
      ([networkRule f isException (PatternToRegex f.pattern)
          (if f.options.domains.isEmpty then []
           else normalizeDomains f.options.domains)
          (if f.options.excludeDomains.isEmpty then []
           else normalizeDomains f.options.excludeDomains)], [])

/-- The include list of `convertCosmetic` (converter.go): domains without
the `~` marker, normalized, in order. -/
def cosmeticIncludes (domains : List Str) : List Str :=
  (domains.filter (fun d => !(['~'].isPrefixOf d))).map normalizeDomain

/-- The exclude list of `convertCosmetic` (converter.go): domains with the
`~` marker stripped, normalized, in order. -/
def cosmeticExcludes (domains : List Str) : List Str :=
  (domains.filter (fun d => ['~'].isPrefixOf d)).map
    (fun d => normalizeDomain (d.drop 1))

/-- One cosmetic `WebKitRule` as built by `convertCosmetic`
(converter.go). -/
def cosmeticRule (selector : Str) (ifD unlessD : List Str) : WebKitRule :=
  { trigger :=
      { urlFilter := ".*".data,
        ifDomain := ifD,
        unlessDomain := unlessD },
    action := { type := "css-display-none".data, selector := selector } }

/-- `convertCosmetic` (converter.go). -/
def convertCosmetic (f : Filter) (isException : Bool) :
    List WebKitRule × Str :=
  if f.selector = [] then ([], "empty-selector".data)
  else if isException then ([], "cosmetic-exception".data)
  else if !(cosmeticIncludes f.domains).isEmpty &&
      !(cosmeticExcludes f.domains).isEmpty then
    ([cosmeticRule f.selector (cosmeticIncludes f.domains) [],
      cosmeticRule f.selector [] (cosmeticExcludes f.domains)], [])
  else
    ([cosmeticRule f.selector
        (if (cosmeticIncludes f.domains).isEmpty then []
         else cosmeticIncludes f.domains)
        (if (cosmeticExcludes f.domains).isEmpty then []
         else cosmeticExcludes f.domains)], [])

/-- The per-filter dispatch of `(*Converter).Convert` (converter.go):
comments and unsupported filters produce nothing (`continue`), the four
convertible kinds go through `convertNetwork` / `convertCosmetic`. -/
def emitFilter (compileOk : Str → Bool) (f : Filter) :
    List WebKitRule × Str :=
  match f.type with
  | .network => convertNetwork compileOk f false
  | .exception => convertNetwork compileOk f true
  | .cosmetic => convertCosmetic f false
  | .cosmeticException => convertCosmetic f true
  | _ => ([], [])

/-! ## Supporting lemmas -/

/-- If every element of `ds` satisfies `p` and `c` does not, the
`takeWhile` of `ds ++ c :: rest` is exactly `ds`. -/
theorem takeWhile_append_stop (p : Char → Bool) (ds : Str) (c : Char)
    (rest : Str) (h : ∀ x ∈ ds, p x = true) (hc : p c = false) :
    (ds ++ c :: rest).takeWhile p = ds := by
  induction ds with
  | nil => simp [List.takeWhile_cons, hc]
  | cons a tl ih =>
    have ha : p a = true := h a (by simp)
    simp only [List.cons_append, List.takeWhile_cons, ha, if_true]
    rw [ih (fun x hx => h x (List.mem_cons_of_mem a hx))]

/-- `numQuantTail` accepts a digit run followed by a closing brace. -/
theorem numQuantTail_closed (ds post : Str) (hne : ds ≠ [])
    (hdig : ∀ x ∈ ds, x.isDigit = true) :
    numQuantTail (ds ++ '\x7d' :: post) = true := by
  have ht := takeWhile_append_stop Char.isDigit ds '\x7d' post hdig (by decide)
  have hd : (ds ++ '\x7d' :: post).drop ds.length = '\x7d' :: post :=
    List.drop_left ds ('\x7d' :: post)
  unfold numQuantTail
  rw [ht, hd]
  unfold numQuantAfterDigits
  simp [hne]

/-- `numQuantTail` accepts a digit run, a comma, a digit run and a closing
brace. -/
theorem numQuantTail_range (ds ds2 post : Str) (hne : ds ≠ [])
    (hdig : ∀ x ∈ ds, x.isDigit = true) (hne2 : ds2 ≠ [])
    (hdig2 : ∀ x ∈ ds2, x.isDigit = true) :
    numQuantTail (ds ++ ',' :: (ds2 ++ '\x7d' :: post)) = true := by
  have ht := takeWhile_append_stop Char.isDigit ds ','
    (ds2 ++ '\x7d' :: post) hdig (by decide)
  have hd := List.drop_left ds (',' :: (ds2 ++ '\x7d' :: post))
  have ht2 := takeWhile_append_stop Char.isDigit ds2 '\x7d' post hdig2
    (by decide)
  have hd2 : (ds2 ++ '\x7d' :: post).drop ds2.length = '\x7d' :: post :=
    List.drop_left ds2 ('\x7d' :: post)
  unfold numQuantTail
  rw [ht, hd]
  unfold numQuantAfterDigits
  simp only [List.head?_cons, List.drop_one, List.tail_cons]
  unfold numQuantAfterComma
  rw [ht2, hd2]
  simp [hne, hne2]

/-- A position whose tail matches `numQuantTail` makes
`hasNumericQuantifier` true, wherever it sits in the string. -/
theorem hasNumericQuantifier_of_tail (pre rest : Str)
    (h : numQuantTail rest = true) :
    hasNumericQuantifier (pre ++ '{' :: rest) = true := by
  induction pre with
  | nil => simp [hasNumericQuantifier, h]
  | cons a tl ih => simp [hasNumericQuantifier, ih]

/-- A regex in which `reNumericQuantifier` matches fails `ValidateRegex`
whatever the compile outcome. -/
theorem validateRegex_false_of_quant (c : Bool) (r : Str)
    (h : hasNumericQuantifier r = true) : ValidateRegex c r = false := by
  unfold ValidateRegex ValidateRegexChecks
  simp [h]

/-- A character that occurs nowhere in `s` has no last index. -/
theorem lastIndexOfChar_eq_none (c : Char) (s : Str) (h : c ∉ s) :
    lastIndexOfChar c s = none := by
  induction s with
  | nil => rfl
  | cons a tl ih =>
    have hne : ¬(a = c) := fun e => h (e ▸ List.mem_cons_self a tl)
    have hm : c ∉ tl := fun hm => h (List.mem_cons_of_mem a hm)
    simp [lastIndexOfChar, ih hm, hne]

/-- When `c` does not occur in `o`, the last index of `c` in `p ++ c :: o`
is `p.length`. -/
theorem lastIndexOfChar_append_cons (c : Char) (p o : Str) (h : c ∉ o) :
    lastIndexOfChar c (p ++ c :: o) = some p.length := by
  induction p with
  | nil => simp [lastIndexOfChar, lastIndexOfChar_eq_none c o h]
  | cons a tl ih => simp [lastIndexOfChar, ih]

/-- Indexing a nonempty `p` at `p.length - 1` inside `p ++ rest` reads
`p`'s last character. -/
theorem goIndex_append_getLast (p rest : Str) (hp : p ≠ []) :
    goIndex (p ++ rest) (p.length - 1) = p.getLast? := by
  unfold goIndex
  have h1 : p.length - 1 < p.length := by
    cases p with
    | nil => exact absurd rfl hp
    | cons a tl => simp
  rw [List.get?_eq_getElem?, List.getElem?_append_left h1,
    List.getLast?_eq_getElem?]

/-- Slicing `p ++ o` from `p.length` to the end yields `o`. -/
theorem goSliceFrom_append (p o : Str) :
    goSliceFrom (p ++ o) p.length = some o := by
  unfold goSliceFrom goSlice
  rw [if_pos ⟨by simp, Nat.le_refl _⟩]
  rw [List.take_length, List.drop_left]

/-- Slicing `p ++ c :: o` from `p.length + 1` to the end yields `o`. -/
theorem goSliceFrom_append_cons (p o : Str) (c : Char) :
    goSliceFrom (p ++ c :: o) (p.length + 1) = some o := by
  have h := goSliceFrom_append (p ++ [c]) o
  simpa using h

/-- Slicing `p ++ o` from `0` to `p.length` yields `p`. -/
theorem goSlice_prefix_part (p o : Str) :
    goSlice (p ++ o) 0 p.length = some p := by
  unfold goSlice
  rw [if_pos ⟨Nat.zero_le _, by simp⟩]
  rw [List.take_left, List.drop_zero]

/-- `parseNetwork` on `p ++ '$' :: o` where the final dollar is the only
one, is unescaped (`p` does not end in a backslash) and is not followed by
a slash: the line splits there, and the filter is discarded exactly when
the option text has an unsupported option. -/
theorem parseNetwork_split_eq (p o : Str) (b : Bool) (hno : '$' ∉ o)
    (hesc : p = [] ∨ p.getLast? ≠ some '\\')
    (hsl : ['/'].isPrefixOf o = false) :
    parseNetwork (p ++ '$' :: o) b =
      (if hasUnsupportedOptions o then some skipFilter
       else some { type := if b then .exception else .network,
                   raw := p ++ '$' :: o, pattern := p,
                   options := parseOptions o }) := by
  unfold parseNetwork
  rw [lastIndexOfChar_append_cons '$' p o hno]
  by_cases hp : p = []
  · subst hp
    have h1 : goSliceFrom ('$' :: o) (0 + 1) = some o :=
      goSliceFrom_append_cons [] o '$'
    have h2 : goSlice ('$' :: o) 0 0 = some [] := by
      unfold goSlice
      rw [if_pos ⟨Nat.le_refl _, Nat.zero_le _⟩]
      rfl
    simp [parseNetworkSplit, parseNetworkAfterSplit, noSplitFilter,
      h1, h2, hsl]
  · have hlast : p.getLast? ≠ some '\\' := by
      rcases hesc with h | h
      · exact absurd h hp
      · exact h
    have hlen : ¬(p.length = 0) := by
      cases p with
      | nil => exact absurd rfl hp
      | cons a tl => simp
    cases hgl : p.getLast? with
    | none => exact absurd (List.getLast?_eq_none_iff.mp hgl) hp
    | some ch =>
      have hne : ch ≠ '\\' := by
        intro e
        rw [hgl, e] at hlast
        exact hlast rfl
      have hch : (ch == '\\') = false := beq_eq_false_iff_ne.mpr hne
      simp [parseNetworkSplit, parseNetworkAfterSplit, noSplitFilter,
        hlen, goIndex_append_getLast p ('$' :: o) hp, hgl, hch,
        goSliceFrom_append_cons p o '$', goSlice_prefix_part p ('$' :: o),
        hsl]

/-- `parseNetwork` does not split when the last dollar of the line is
escaped or followed by a slash: the whole line becomes the pattern and no
options are parsed. -/
theorem parseNetwork_nosplit_eq (p o : Str) (b : Bool) (hno : '$' ∉ o)
    (h : p.getLast? = some '\\' ∨ ['/'].isPrefixOf o = true) :
    parseNetwork (p ++ '$' :: o) b =
      some { type := if b then .exception else .network,
             raw := p ++ '$' :: o, pattern := p ++ '$' :: o } := by
  unfold parseNetwork
  rw [lastIndexOfChar_append_cons '$' p o hno]
  by_cases hp : p = []
  · subst hp
    rcases h with h | h
    · simp at h
    · have h1 : goSliceFrom ('$' :: o) (0 + 1) = some o :=
        goSliceFrom_append_cons [] o '$'
      simp [parseNetworkSplit, parseNetworkAfterSplit, noSplitFilter, h1, h]
  · have hlen : ¬(p.length = 0) := by
      cases p with
      | nil => exact absurd rfl hp
      | cons a tl => simp
    cases hgl : p.getLast? with
    | none => exact absurd (List.getLast?_eq_none_iff.mp hgl) hp
    | some ch =>
      rcases h with h | h
      · have hch : (ch == '\\') = true := by
          rw [hgl] at h
          exact beq_iff_eq.mpr (Option.some.inj h)
        simp [parseNetworkSplit, noSplitFilter, hlen,
          goIndex_append_getLast p ('$' :: o) hp, hgl, hch]
      · by_cases hch : (ch == '\\') = true
        · simp [parseNetworkSplit, noSplitFilter, hlen,
            goIndex_append_getLast p ('$' :: o) hp, hgl, hch]
        · simp [parseNetworkSplit, parseNetworkAfterSplit, noSplitFilter,
            hlen, goIndex_append_getLast p ('$' :: o) hp, hgl,
            Bool.eq_false_iff.mpr hch, goSliceFrom_append_cons p o '$', h]

/-! ## Claim theorems -/

/-- C1, counterexample: the regex `a{3,}` contains the open numeric
quantifier `{3,}` (the translator's own `reNumericQuantifierOpen` matches
it), Go's `regexp.Compile` accepts it, and `ValidateRegex` returns `true`
for it — the open form still present at validation time is not fatal,
because `reNumericQuantifier` (`\{[0-9]+(,[0-9]+)?\}`) cannot match
`{3,}`. -/
theorem open_quantifier_not_fatal :
    matchesOpenQuant "a\x7b3,\x7d".data = true ∧
    ValidateRegex true "a\x7b3,\x7d".data = true := by decide

/-- C1, amended: `ValidateRegex` returns `false` for every regex containing
a closed numeric quantifier `{n}` or `{n,m}` (a brace, a non-empty digit
run, optionally a comma and a second non-empty digit run, and a closing
brace), regardless of the compile outcome; the open form `{n,}` is not
checked. -/
theorem validateRegex_rejects_closed_quantifiers (c : Bool)
    (pre post ds ds2 : Str)
    (hds : ds ≠ [] ∧ ∀ x ∈ ds, x.isDigit = true)
    (hds2 : ds2 ≠ [] ∧ ∀ x ∈ ds2, x.isDigit = true) :
    ValidateRegex c (pre ++ '{' :: (ds ++ '\x7d' :: post)) = false ∧
    ValidateRegex c (pre ++ '{' :: (ds ++ ',' :: (ds2 ++ '\x7d' :: post)))
      = false := by
  constructor
  · exact validateRegex_false_of_quant c _
      (hasNumericQuantifier_of_tail pre _
        (numQuantTail_closed ds post hds.1 hds.2))
  · exact validateRegex_false_of_quant c _
      (hasNumericQuantifier_of_tail pre _
        (numQuantTail_range ds ds2 post hds.1 hds.2 hds2.1 hds2.2))

/-- C1, witness: the amended theorem applied at the concrete regexes
`[0-9]{30}…` and `[0-9]{30,5}…`. -/
theorem validateRegex_rejects_closed_quantifiers_witness :
    ((("30".data : Str) ≠ [] ∧ ∀ x ∈ ("30".data : Str), x.isDigit = true) ∧
     (("5".data : Str) ≠ [] ∧ ∀ x ∈ ("5".data : Str), x.isDigit = true)) ∧
    (ValidateRegex true
        ("[0-9]".data ++ '{' :: ("30".data ++ '\x7d' :: [])) = false ∧
     ValidateRegex true
        ("[0-9]".data ++ '{' ::
          ("30".data ++ ',' :: ("5".data ++ '\x7d' :: []))) = false) :=
  ⟨⟨by decide, by decide⟩,
   validateRegex_rejects_closed_quantifiers true "[0-9]".data [] "30".data
     "5".data (by decide) (by decide)⟩

/-- C2, counterexample: the bare pattern `\w{30,}` (no surrounding slashes)
is treated as a plain wildcard pattern, so its metacharacters are escaped:
the translation is `\\w\{30,\}`, not `[a-zA-Z0-9_]+`, and it fails
validation (the escaped `\\w` still trips the shorthand-class check). -/
theorem plain_pattern_quantifier_not_approximated :
    PatternToRegex "\\w\x7b30,\x7d".data = "\\\\w\\\x7b30,\\\x7d".data ∧
    PatternToRegex "\\w\x7b30,\x7d".data ≠ ('[' :: "a-zA-Z0-9_]+".data) ∧
    ValidateRegex true (PatternToRegex "\\w\x7b30,\x7d".data) = false := by
  decide

/-- C2, amended: for the regex-literal pattern `/\w{30,}/` the translation
is `[a-zA-Z0-9_]+` and validates as true, and for `/\w{30}/` (exact count)
the translation is `[a-zA-Z0-9_]{30}` and validates as false (Go's
`regexp.Compile` accepts both outputs, hence `compileOk = true`). -/
theorem regex_literal_quantifier_approximation :
    PatternToRegex "/\\w\x7b30,\x7d/".data = ('[' :: "a-zA-Z0-9_]+".data) ∧
    ValidateRegex true (PatternToRegex "/\\w\x7b30,\x7d/".data) = true ∧
    PatternToRegex "/\\w\x7b30\x7d/".data
      = ('[' :: "a-zA-Z0-9_]".data ++ ['\x7b', '3', '0', '\x7d']) ∧
    ValidateRegex true (PatternToRegex "/\\w\x7b30\x7d/".data) = false := by
  decide

/-- C5: the hostname-anchored pattern with a trailing separator translates
to the documented separator-class regex, and its end-anchor variant to the
documented `$`-anchored regex. -/
theorem anchor_round_trip :
    PatternToRegex "||example.com^".data
      = "^[a-z-]+://(?:[^/?#]+\\.)?example\\.com[^%.0-9a-z_-]".data ∧
    PatternToRegexEndAnchor "||example.com^".data
      = "^[a-z-]+://(?:[^/?#]+\\.)?example\\.com$".data := by decide

/-- C10, counterexample: the regex-literal pattern `/.*/` also maps to
`.*`, so the empty pattern and the single `*` are not the only patterns
translating to `.*`. -/
theorem regex_literal_maps_to_dot_star :
    PatternToRegex "/.*/".data = ".*".data ∧
    "/.*/".data ≠ ([] : Str) ∧ "/.*/".data ≠ "*".data := by decide

/-- C3, counterexample: in `a$b$/` the dollar at index 1 is unescaped
(index 0 holds `a`) and not followed by a slash (index 2 holds `b`), yet
the parser does not split there: because the LAST dollar of the line is
followed by `/`, no split happens at all and the whole line becomes the
pattern, not `a`. -/
theorem dollar_split_no_fallback :
    goIndex "a$b$/".data 1 = some '$' ∧
    goIndex "a$b$/".data 0 = some 'a' ∧
    goIndex "a$b$/".data 2 = some 'b' ∧
    (parseNetwork "a$b$/".data false).map Filter.pattern
      = some "a$b$/".data ∧
    (parseNetwork "a$b$/".data false).map Filter.pattern
      ≠ some "a".data := by decide

/-- C3, amended: parsing considers only the LAST dollar sign of the line.
If it is unescaped and not immediately followed by a slash, the line splits
there (pattern before, options after); otherwise no split occurs at all —
the parser never falls back to an earlier eligible dollar sign — and the
whole line becomes the pattern. -/
theorem parseNetwork_last_dollar_decides (p o : Str) (b : Bool)
    (hno : '$' ∉ o) (hops : hasUnsupportedOptions o = false) :
    parseNetwork (p ++ '$' :: o) b =
      (if (p = [] ∨ p.getLast? ≠ some '\\') ∧
          ¬(['/'].isPrefixOf o = true) then
        some { type := if b then .exception else .network,
               raw := p ++ '$' :: o, pattern := p,
               options := parseOptions o }
      else
        some { type := if b then .exception else .network,
               raw := p ++ '$' :: o, pattern := p ++ '$' :: o }) := by
  by_cases hcond : (p = [] ∨ p.getLast? ≠ some '\\') ∧
      ¬(['/'].isPrefixOf o = true)
  · rw [if_pos hcond]
    have hsl : ['/'].isPrefixOf o = false := Bool.eq_false_iff.mpr hcond.2
    rw [parseNetwork_split_eq p o b hno hcond.1 hsl]
    rw [if_neg (by rw [hops]; exact Bool.false_ne_true)]
  · rw [if_neg hcond]
    rcases not_and_or.mp hcond with h | h
    · push_neg at h
      exact parseNetwork_nosplit_eq p o b hno (Or.inl h.2)
    · exact parseNetwork_nosplit_eq p o b hno (Or.inr (not_not.mp h))

/-- C3, witness: the amended theorem at the line `||x.com^$script`
(pattern `||x.com^`, option text `script`). -/
theorem parseNetwork_last_dollar_decides_witness :
    ('$' ∉ "script".data ∧
      hasUnsupportedOptions "script".data = false) ∧
    parseNetwork ("||x.com^".data ++ '$' :: "script".data) false =
      (if ("||x.com^".data = ([] : Str) ∨
          "||x.com^".data.getLast? ≠ some '\\') ∧
          ¬(['/'].isPrefixOf "script".data = true) then
        some { type := if false then .exception else .network,
               raw := "||x.com^".data ++ '$' :: "script".data,
               pattern := "||x.com^".data,
               options := parseOptions "script".data }
      else
        some { type := if false then .exception else .network,
               raw := "||x.com^".data ++ '$' :: "script".data,
               pattern := "||x.com^".data ++ '$' :: "script".data }) :=
  ⟨⟨by decide, by decide⟩,
   parseNetwork_last_dollar_decides "||x.com^".data "script".data false
     (by decide) (by decide)⟩

/-- C4, counterexample: `classification` is not in the code's unsupported
set, so an option token with prefix `classification` does not make the
filter unsupported — the line parses as a plain network filter. -/
theorem classification_option_not_unsupported :
    "classification".data.isPrefixOf "classification=1".data = true ∧
    (parseNetwork "x$classification=1".data false).map Filter.type
      = some FilterType.network := by decide

/-- C4, amended: a network or exception filter whose line splits at the
last dollar is discarded as unsupported if and only if its option text
contains one of the ten substrings `redirect=`, `redirect-rule=`, `csp=`,
`removeparam=`, `replace=`, `header=`, `method=`, `to=`, `permissions=`,
`uritransform=` — plain substring containment over the whole option text,
not token-prefix matching, and `classification` is not in the set. -/
theorem unsupported_option_substring_iff (p o : Str) (b : Bool)
    (hno : '$' ∉ o) (hesc : p = [] ∨ p.getLast? ≠ some '\\')
    (hsl : ['/'].isPrefixOf o = false) :
    ((parseNetwork (p ++ '$' :: o) b).map Filter.type
        = some FilterType.unsupported ↔
      (isSubstr "redirect=".data o ∨ isSubstr "redirect-rule=".data o ∨
       isSubstr "csp=".data o ∨ isSubstr "removeparam=".data o ∨
       isSubstr "replace=".data o ∨ isSubstr "header=".data o ∨
       isSubstr "method=".data o ∨ isSubstr "to=".data o ∨
       isSubstr "permissions=".data o ∨ isSubstr "uritransform=".data o)) := by
  rw [parseNetwork_split_eq p o b hno hesc hsl]
  by_cases hu : hasUnsupportedOptions o
  · rw [if_pos hu]
    constructor
    · intro _
      simpa [hasUnsupportedOptions] using hu
    · intro _
      simp [skipFilter]
  · rw [if_neg hu]
    constructor
    · intro hcontr
      cases b <;> simp at hcontr
    · intro hdis
      exact absurd (by simpa [hasUnsupportedOptions] using hdis) hu

/-- C4, witness: the amended theorem at pattern `a` with option text
`csp=x` (discarded) — the iff instantiated at a concrete split line. -/
theorem unsupported_option_substring_iff_witness :
    ('$' ∉ "csp=x".data ∧
      ("a".data = ([] : Str) ∨ "a".data.getLast? ≠ some '\\') ∧
      ['/'].isPrefixOf "csp=x".data = false) ∧
    ((parseNetwork ("a".data ++ '$' :: "csp=x".data) false).map Filter.type
        = some FilterType.unsupported ↔
      (isSubstr "redirect=".data "csp=x".data ∨
       isSubstr "redirect-rule=".data "csp=x".data ∨
       isSubstr "csp=".data "csp=x".data ∨
       isSubstr "removeparam=".data "csp=x".data ∨
       isSubstr "replace=".data "csp=x".data ∨
       isSubstr "header=".data "csp=x".data ∨
       isSubstr "method=".data "csp=x".data ∨
       isSubstr "to=".data "csp=x".data ∨
       isSubstr "permissions=".data "csp=x".data ∨
       isSubstr "uritransform=".data "csp=x".data)) :=
  ⟨⟨by decide, by decide, by decide⟩,
   unsupported_option_substring_iff "a".data "csp=x".data false
     (by decide) (by decide) (by decide)⟩

/-- C6: a network filter with a valid translated regex and both domain
sets non-empty is split: the skip reason is empty, exactly 2 rules are
emitted (4 when the end-anchor variant applies), some rule carries
`ifDomain` equal to the normalized include set with no `unlessDomain`,
some rule carries `unlessDomain` equal to the normalized exclude set with
no `ifDomain`, and no rule carries both fields. -/
theorem convertNetwork_domain_split (compileOk : Str → Bool) (f : Filter)
    (b : Bool)
    (hv : ValidateRegex (compileOk (PatternToRegex f.pattern))
      (PatternToRegex f.pattern) = true)
    (hd : f.options.domains ≠ []) (he : f.options.excludeDomains ≠ []) :
    (convertNetwork compileOk f b).2 = [] ∧
    (convertNetwork compileOk f b).1.length =
      (if PatternEndsWithSeparator f.pattern &&
          ValidateRegex (compileOk (PatternToRegexEndAnchor f.pattern))
            (PatternToRegexEndAnchor f.pattern)
       then 4 else 2) ∧
    (∃ r ∈ (convertNetwork compileOk f b).1,
      r.trigger.ifDomain = normalizeDomains f.options.domains ∧
      r.trigger.unlessDomain = []) ∧
    (∃ r ∈ (convertNetwork compileOk f b).1,
      r.trigger.unlessDomain = normalizeDomains f.options.excludeDomains ∧
      r.trigger.ifDomain = []) ∧
    (∀ r ∈ (convertNetwork compileOk f b).1,
      r.trigger.ifDomain = [] ∨ r.trigger.unlessDomain = []) := by
  have hcond : (!(f.options.domains.isEmpty) &&
      !(f.options.excludeDomains.isEmpty)) = true := by
    simp [hd, he]
  unfold convertNetwork
  rw [hv]
  simp only [Bool.not_true, Bool.false_eq_true, if_false, hcond, if_true]
  by_cases hEnd : (PatternEndsWithSeparator f.pattern &&
      ValidateRegex (compileOk (PatternToRegexEndAnchor f.pattern))
        (PatternToRegexEndAnchor f.pattern)) = true
  · rw [if_pos hEnd, if_pos hEnd]
    refine ⟨rfl, rfl, ⟨networkRule f b (PatternToRegex f.pattern)
      (normalizeDomains f.options.domains) [], by simp, rfl, rfl⟩,
      ⟨networkRule f b (PatternToRegex f.pattern) []
        (normalizeDomains f.options.excludeDomains), by simp, rfl, rfl⟩, ?_⟩
    intro r hr
    simp only [List.mem_cons, List.not_mem_nil, or_false] at hr
    rcases hr with rfl | rfl | rfl | rfl
    · exact Or.inr rfl
    · exact Or.inr rfl
    · exact Or.inl rfl
    · exact Or.inl rfl
  · rw [if_neg hEnd, if_neg hEnd]
    refine ⟨rfl, rfl, ⟨networkRule f b (PatternToRegex f.pattern)
      (normalizeDomains f.options.domains) [], by simp, rfl, rfl⟩,
      ⟨networkRule f b (PatternToRegex f.pattern) []
        (normalizeDomains f.options.excludeDomains), by simp, rfl, rfl⟩, ?_⟩
    intro r hr
    simp only [List.mem_cons, List.not_mem_nil, or_false] at hr
    rcases hr with rfl | rfl
    · exact Or.inr rfl
    · exact Or.inl rfl

/-- C6, witness: the split theorem at the filter `||example.com^` with
include `a.com` and exclude `b.com` (end-anchor variant applies: 4
rules). -/
theorem convertNetwork_domain_split_witness :
    (ValidateRegex ((fun _ => true)
        (PatternToRegex "||example.com^".data))
        (PatternToRegex "||example.com^".data) = true ∧
      ([ "a.com".data ] : List Str) ≠ [] ∧
      ([ "b.com".data ] : List Str) ≠ []) ∧
    ((convertNetwork (fun _ => true)
        { type := .network, pattern := "||example.com^".data,
          options := { domains := ["a.com".data],
                       excludeDomains := ["b.com".data] } } false).2 = [] ∧
      (convertNetwork (fun _ => true)
        { type := .network, pattern := "||example.com^".data,
          options := { domains := ["a.com".data],
                       excludeDomains := ["b.com".data] } } false).1.length
        = 4) :=
  ⟨⟨by decide, by decide, by decide⟩, by
    have h := convertNetwork_domain_split (fun _ => true)
      { type := .network, pattern := "||example.com^".data,
        options := { domains := ["a.com".data],
                     excludeDomains := ["b.com".data] } } false
      (by decide) (by decide) (by decide)
    exact ⟨h.1, by rw [h.2.1]; decide⟩⟩

/-- C7: when the pattern ends in a separator, the base regex validates but
the end-anchor variant does not, the variant is silently dropped: the
filter is not skipped (empty reason, at least one rule) and every emitted
rule uses the character-class regex. -/
theorem convertNetwork_invalid_end_variant_dropped (compileOk : Str → Bool)
    (f : Filter) (b : Bool)
    (hsep : PatternEndsWithSeparator f.pattern = true)
    (hv : ValidateRegex (compileOk (PatternToRegex f.pattern))
      (PatternToRegex f.pattern) = true)
    (hbad : ValidateRegex (compileOk (PatternToRegexEndAnchor f.pattern))
      (PatternToRegexEndAnchor f.pattern) = false) :
    (convertNetwork compileOk f b).2 = [] ∧
    (convertNetwork compileOk f b).1 ≠ [] ∧
    ∀ r ∈ (convertNetwork compileOk f b).1,
      r.trigger.urlFilter = PatternToRegex f.pattern := by
  have hEnd : (PatternEndsWithSeparator f.pattern &&
      ValidateRegex (compileOk (PatternToRegexEndAnchor f.pattern))
        (PatternToRegexEndAnchor f.pattern)) = false := by
    rw [hsep, hbad]
    rfl
  unfold convertNetwork
  rw [hv]
  simp only [Bool.not_true, Bool.false_eq_true, if_false, hEnd]
  by_cases hcond : (!(f.options.domains.isEmpty) &&
      !(f.options.excludeDomains.isEmpty)) = true
  · rw [if_pos hcond]
    refine ⟨rfl, by simp, ?_⟩
    intro r hr
    simp only [List.mem_cons, List.not_mem_nil, or_false] at hr
    rcases hr with rfl | rfl
    · rfl
    · rfl
  · rw [if_neg hcond]
    refine ⟨rfl, by simp, ?_⟩
    intro r hr
    simp only [List.mem_cons, List.not_mem_nil, or_false] at hr
    rcases hr with rfl
    rfl

/-- C7, witness: the pattern `/a{30}/^` — the base regex escapes the
braces and validates, while the end-anchor variant re-enters the regex
literal path and keeps the fatal `{30}` quantifier, so it is dropped. -/
theorem convertNetwork_invalid_end_variant_dropped_witness :
    (PatternEndsWithSeparator "/a\x7b30\x7d/^".data = true ∧
     ValidateRegex ((fun _ => true)
        (PatternToRegex "/a\x7b30\x7d/^".data))
        (PatternToRegex "/a\x7b30\x7d/^".data) = true ∧
     ValidateRegex ((fun _ => true)
        (PatternToRegexEndAnchor "/a\x7b30\x7d/^".data))
        (PatternToRegexEndAnchor "/a\x7b30\x7d/^".data) = false) ∧
    ((convertNetwork (fun _ => true)
        { type := .network, pattern := "/a\x7b30\x7d/^".data } false).2 = []
      ∧
     (convertNetwork (fun _ => true)
        { type := .network, pattern := "/a\x7b30\x7d/^".data } false).1 ≠ []
      ∧
     ∀ r ∈ (convertNetwork (fun _ => true)
        { type := .network, pattern := "/a\x7b30\x7d/^".data } false).1,
       r.trigger.urlFilter = PatternToRegex "/a\x7b30\x7d/^".data) :=
  ⟨⟨by decide, by decide, by decide⟩,
   convertNetwork_invalid_end_variant_dropped (fun _ => true)
     { type := .network, pattern := "/a\x7b30\x7d/^".data } false
     (by decide) (by decide) (by decide)⟩

/-- Every rule emitted by `convertNetwork` has at most one of the two
domain fields set. -/
theorem convertNetwork_not_both (compileOk : Str → Bool) (f : Filter)
    (b : Bool) :
    ∀ r ∈ (convertNetwork compileOk f b).1,
      r.trigger.ifDomain = [] ∨ r.trigger.unlessDomain = [] := by
  intro r hr
  unfold convertNetwork at hr
  split at hr
  · simp at hr
  · split at hr
    · split at hr
      · simp only [List.mem_cons, List.not_mem_nil, or_false] at hr
        rcases hr with rfl | rfl | rfl | rfl
        · exact Or.inr rfl
        · exact Or.inr rfl
        · exact Or.inl rfl
        · exact Or.inl rfl
      · simp only [List.mem_cons, List.not_mem_nil, or_false] at hr
        rcases hr with rfl | rfl
        · exact Or.inr rfl
        · exact Or.inl rfl
    · rename_i hcond
      have hone : f.options.domains.isEmpty = true ∨
          f.options.excludeDomains.isEmpty = true := by
        by_cases h1 : f.options.domains.isEmpty = true
        · exact Or.inl h1
        · by_cases h2 : f.options.excludeDomains.isEmpty = true
          · exact Or.inr h2
          · exact absurd (by rw [Bool.eq_false_iff.mpr h1,
              Bool.eq_false_iff.mpr h2]; rfl) hcond
      have hfields : ∀ url : Str,
          (networkRule f b url
            (if f.options.domains.isEmpty then []
             else normalizeDomains f.options.domains)
            (if f.options.excludeDomains.isEmpty then []
             else normalizeDomains f.options.excludeDomains)
            ).trigger.ifDomain = [] ∨
          (networkRule f b url
            (if f.options.domains.isEmpty then []
             else normalizeDomains f.options.domains)
            (if f.options.excludeDomains.isEmpty then []
             else normalizeDomains f.options.excludeDomains)
            ).trigger.unlessDomain = [] := by
        intro url
        rcases hone with h | h
        · left
          simp [networkRule, h]
        · right
          simp [networkRule, h]
      split at hr
      · simp only [List.mem_cons, List.not_mem_nil, or_false] at hr
        rcases hr with rfl | rfl
        · exact hfields _
        · exact hfields _
      · simp only [List.mem_cons, List.not_mem_nil, or_false] at hr
        rcases hr with rfl
        exact hfields _

/-- Every rule emitted by `convertCosmetic` has at most one of the two
domain fields set. -/
theorem convertCosmetic_not_both (f : Filter) (b : Bool) :
    ∀ r ∈ (convertCosmetic f b).1,
      r.trigger.ifDomain = [] ∨ r.trigger.unlessDomain = [] := by
  intro r hr
  unfold convertCosmetic at hr
  split at hr
  · simp at hr
  · split at hr
    · simp at hr
    · split at hr
      · simp only [List.mem_cons, List.not_mem_nil, or_false] at hr
        rcases hr with rfl | rfl
        · exact Or.inr rfl
        · exact Or.inl rfl
      · rename_i hcond
        simp only [List.mem_cons, List.not_mem_nil, or_false] at hr
        rcases hr with rfl
        by_cases h1 : (cosmeticIncludes f.domains).isEmpty = true
        · left
          simp [cosmeticRule, h1]
        · by_cases h2 : (cosmeticExcludes f.domains).isEmpty = true
          · right
            simp [cosmeticRule, h2]
          · exact absurd (by rw [Bool.eq_false_iff.mpr h1,
              Bool.eq_false_iff.mpr h2]; rfl) hcond

/-- C8: for every filter of any kind and every rule the emitter returns,
at most one of `ifDomain` and `unlessDomain` is non-empty — never both on
the same rule. -/
theorem emit_never_both_domain_fields (compileOk : Str → Bool)
    (f : Filter) :
    ∀ r ∈ (emitFilter compileOk f).1,
      r.trigger.ifDomain = [] ∨ r.trigger.unlessDomain = [] := by
  intro r hr
  unfold emitFilter at hr
  cases hft : f.type
  case comment => rw [hft] at hr; simp at hr
  case unsupported => rw [hft] at hr; simp at hr
  case network =>
    rw [hft] at hr
    exact convertNetwork_not_both compileOk f false r hr
  case exception =>
    rw [hft] at hr
    exact convertNetwork_not_both compileOk f true r hr
  case cosmetic =>
    rw [hft] at hr
    exact convertCosmetic_not_both f false r hr
  case cosmeticException =>
    rw [hft] at hr
    exact convertCosmetic_not_both f true r hr

/-- C8, witness: the no-both-domains theorem applied to a concrete rule
emitted for the cosmetic filter `a.com,~b.com##.ad`. -/
theorem emit_never_both_domain_fields_witness :
    cosmeticRule ".ad".data ["*a.com".data] [] ∈
      (emitFilter (fun _ => true)
        { type := .cosmetic, selector := ".ad".data,
          domains := ["a.com".data, "~b.com".data] }).1 ∧
    ((cosmeticRule ".ad".data ["*a.com".data] []).trigger.ifDomain = [] ∨
     (cosmeticRule ".ad".data ["*a.com".data] []).trigger.unlessDomain
       = []) :=
  ⟨by decide,
   emit_never_both_domain_fields (fun _ => true)
     { type := .cosmetic, selector := ".ad".data,
       domains := ["a.com".data, "~b.com".data] }
     (cosmeticRule ".ad".data ["*a.com".data] []) (by decide)⟩

/-- A found substring index leaves room for the whole needle. -/
theorem indexOfSubstr_bound (pat s : Str) (i : Nat)
    (h : indexOfSubstr pat s = some i) : i + pat.length ≤ s.length := by
  induction s generalizing i with
  | nil =>
    unfold indexOfSubstr at h
    by_cases hp : pat.isEmpty
    · rw [if_pos hp] at h
      obtain rfl := Option.some.inj h
      simp [List.isEmpty_iff.mp hp]
    · rw [if_neg hp] at h
      cases h
  | cons c rest ih =>
    unfold indexOfSubstr at h
    by_cases hp : pat.isPrefixOf (c :: rest) = true
    · rw [if_pos hp] at h
      obtain rfl := Option.some.inj h
      simpa using (List.isPrefixOf_iff_prefix.mp hp).length_le
    · rw [if_neg hp] at h
      cases hrec : indexOfSubstr pat rest with
      | none => rw [hrec] at h; cases h
      | some j =>
        rw [hrec] at h
        obtain rfl := Option.some.inj h
        have := ih j hrec
        simp only [List.length_cons]
        omega

/-- A found last index of a character is inside the string. -/
theorem lastIndexOfChar_lt (c : Char) (s : Str) (i : Nat)
    (h : lastIndexOfChar c s = some i) : i < s.length := by
  induction s generalizing i with
  | nil => cases h
  | cons a rest ih =>
    unfold lastIndexOfChar at h
    cases hrec : lastIndexOfChar c rest with
    | some j =>
      rw [hrec] at h
      obtain rfl := Option.some.inj h
      have := ih j hrec
      simp only [List.length_cons]
      omega
    | none =>
      rw [hrec] at h
      by_cases ha : a = c
      · rw [if_pos ha] at h
        obtain rfl := Option.some.inj h
        simp
      · rw [if_neg ha] at h
        cases h

/-- A Boolean prefix gives the length inequality. -/
theorem isPrefixOf_length_le (p s : Str) (h : p.isPrefixOf s = true) :
    p.length ≤ s.length :=
  (List.isPrefixOf_iff_prefix.mp h).length_le

/-- An if-then-else between two `some`s is always `some`. -/
theorem isSome_ite_some {α : Type} (c : Prop) [Decidable c] (a b : α) :
    (if c then some a else some b).isSome = true := by
  split <;> rfl

/-- The after-split tail of `parseNetwork` never fails when the cut index
is in bounds. -/
theorem parseNetworkAfterSplit_isSome (line optPart : Str) (b : Bool)
    (idx : Nat) (h : idx ≤ line.length) :
    (parseNetworkAfterSplit line optPart b idx).isSome = true := by
  unfold parseNetworkAfterSplit
  split
  · rfl
  · have h2 : goSlice line 0 idx = some ((line.take idx).drop 0) := by
      unfold goSlice
      rw [if_pos ⟨Nat.zero_le _, h⟩]
    rw [h2]
    exact isSome_ite_some _ _ _

/-- The found-dollar branch of `parseNetwork` never fails when the dollar
index is in bounds. -/
theorem parseNetworkSplit_isSome (line : Str) (b : Bool) (idx : Nat)
    (hlt : idx < line.length) :
    (parseNetworkSplit line b idx).isSome = true := by
  unfold parseNetworkSplit
  have h1 : goSliceFrom line (idx + 1)
      = some ((line.take line.length).drop (idx + 1)) := by
    unfold goSliceFrom goSlice
    rw [if_pos ⟨by omega, Nat.le_refl _⟩]
  by_cases hz : idx = 0
  · subst hz
    rw [show (if (0 : Nat) = 0 then some false
        else (goIndex line (0 - 1)).map (fun c => c == '\\'))
        = some false from rfl, h1]
    exact parseNetworkAfterSplit_isSome line _ b 0 (by omega)
  · have h3 : goIndex line (idx - 1) = some (line.get ⟨idx - 1, by omega⟩)
        := by
      unfold goIndex
      exact List.get?_eq_get (by omega)
    have e0 : (if idx = 0 then some false
        else (goIndex line (idx - 1)).map (fun c => c == '\\'))
        = some (line.get ⟨idx - 1, by omega⟩ == '\\') := by
      rw [if_neg hz, h3, Option.map_some']
    rw [e0]
    cases hb : (line.get ⟨idx - 1, by omega⟩ == '\\') with
    | true => rfl
    | false =>
      rw [h1]
      exact parseNetworkAfterSplit_isSome line _ b idx (by omega)

/-- `parseNetwork` never fails: every slice and index it takes is in
bounds. -/
theorem parseNetwork_isSome (line : Str) (b : Bool) :
    (parseNetwork line b).isSome = true := by
  unfold parseNetwork
  cases hli : lastIndexOfChar '$' line with
  | none => rfl
  | some idx =>
    exact parseNetworkSplit_isSome line b idx
      (lastIndexOfChar_lt '$' line idx hli)

/-- `parseCosmetic` never fails when the separator index leaves room for
the separator itself. -/
theorem parseCosmetic_isSome (line : Str) (sepIdx : Nat) (b : Bool)
    (h : sepIdx + (if b then 3 else 2) ≤ line.length) :
    (parseCosmetic line sepIdx b).isSome = true := by
  unfold parseCosmetic
  have h2 : goSliceFrom line (sepIdx + (if b then 3 else 2))
      = some ((line.take line.length).drop (sepIdx + (if b then 3 else 2)))
      := by
    unfold goSliceFrom goSlice
    rw [if_pos ⟨h, Nat.le_refl _⟩]
  by_cases hz : 0 < sepIdx
  · have hle : sepIdx ≤ line.length :=
      Nat.le_trans (Nat.le_add_right sepIdx _) h
    have h1 : goSlice line 0 sepIdx = some ((line.take sepIdx).drop 0) := by
      unfold goSlice
      rw [if_pos ⟨Nat.le_of_lt hz, hle⟩]
    simp [hz, h1, h2]
  · simp [hz, h2]

/-- C9: classification followed by emission is total — every line,
however malformed, parses to a `Filter` (no slice or index the parser
takes can be out of bounds), and every `Filter` resolves to a rule list
plus a skip reason, so processing never halts. -/
theorem parse_emit_total (line : Str) :
    ∃ f : Filter, parseLine line = some f ∧
      ∀ compileOk : Str → Bool, ∃ out : List WebKitRule × Str,
        emitFilter compileOk f = out := by
  have hsome : (parseLine line).isSome = true := by
    unfold parseLine
    split
    · rfl
    · split
      · rfl
      · split
        · rfl
        · split
          · rfl
          · cases hi1 : indexOfSubstr "##".data line with
            | some idx =>
              cases hi2 : isSubstr "#@#".data line with
              | false =>
                have hb := indexOfSubstr_bound "##".data line idx hi1
                exact parseCosmetic_isSome line idx false (by simpa using hb)
              | true =>
                cases hi3 : indexOfSubstr "#@#".data line with
                | some idx2 =>
                  have hb := indexOfSubstr_bound "#@#".data line idx2 hi3
                  exact parseCosmetic_isSome line idx2 true
                    (by simpa using hb)
                | none =>
                  by_cases hat : "@@".data.isPrefixOf line = true
                  · rw [if_pos hat]
                    have hle := isPrefixOf_length_le "@@".data line hat
                    have h4 : goSliceFrom line 2
                        = some ((line.take line.length).drop 2) := by
                      unfold goSliceFrom goSlice
                      rw [if_pos ⟨by simpa using hle, Nat.le_refl _⟩]
                    rw [h4]
                    exact parseNetwork_isSome _ true
                  · rw [if_neg hat]
                    exact parseNetwork_isSome line false
            | none =>
              cases hi3 : indexOfSubstr "#@#".data line with
              | some idx2 =>
                have hb := indexOfSubstr_bound "#@#".data line idx2 hi3
                exact parseCosmetic_isSome line idx2 true (by simpa using hb)
              | none =>
                by_cases hat : "@@".data.isPrefixOf line = true
                · rw [if_pos hat]
                  have hle := isPrefixOf_length_le "@@".data line hat
                  have h4 : goSliceFrom line 2
                      = some ((line.take line.length).drop 2) := by
                    unfold goSliceFrom goSlice
                    rw [if_pos ⟨by simpa using hle, Nat.le_refl _⟩]
                  rw [h4]
                  exact parseNetwork_isSome _ true
                · rw [if_neg hat]
                  exact parseNetwork_isSome line false
  obtain ⟨f, hf⟩ := Option.isSome_iff_exists.mp hsome
  exact ⟨f, hf, fun compileOk => ⟨emitFilter compileOk f, rfl⟩⟩

/-- A two-character-or-longer prefix whose head is not `*` is no prefix of
a string of asterisks. -/
theorem not_isPrefixOf_star (c : Char) (cs rest : Str)
    (h : (c == '*') = false) :
    ((c :: cs).isPrefixOf ('*' :: rest)) = false := by
  simp [List.isPrefixOf, h]

/-- Escaping leaves a string of asterisks unchanged (`*` is not among the
escaped metacharacters). -/
theorem escapePlainChars_replicate_star (n : Nat) :
    escapePlainChars (List.replicate n '*') = List.replicate n '*' := by
  induction n with
  | zero => rfl
  | succ m ih =>
    rw [List.replicate_succ]
    show (if ('*' ∈ ['.', '+', '?', '$', '{', '\x7d', '(', ')', '|',
        '[', ']', '\\']) then ['\\', '*'] else ['*']) ++
      escapePlainChars (List.replicate m '*') = _
    rw [if_neg (by decide), ih, List.singleton_append,
      ← List.replicate_succ]

/-- Separator rewriting leaves a string of asterisks unchanged. -/
theorem replaceSeparators_replicate_star (n : Nat) :
    replaceSeparators (List.replicate n '*') = List.replicate n '*' := by
  induction n with
  | zero => rfl
  | succ m ih =>
    rw [List.replicate_succ]
    show (if ('*' = '^') then restrSeparator else ['*']) ++
      replaceSeparators (List.replicate m '*') = _
    rw [if_neg (by decide), ih, List.singleton_append,
      ← List.replicate_succ]

/-- Dropping a leading run of asterisks from a string of asterisks leaves
nothing. -/
theorem dropWhile_star_replicate (n : Nat) :
    (List.replicate n '*').dropWhile (· = '*') = [] := by
  induction n with
  | zero => rfl
  | succ m ih =>
    rw [List.replicate_succ, List.dropWhile_cons]
    simp [ih]

/-- The dangling-asterisk removal empties a string of asterisks. -/
theorem dropDanglingAsterisks_replicate_star (n : Nat) :
    dropDanglingAsterisks (List.replicate n '*') = [] := by
  unfold dropDanglingAsterisks
  rw [dropWhile_star_replicate]
  rfl

/-- A one-character suffix other than `*` is no suffix of a string of
asterisks. -/
theorem singleton_isSuffixOf_replicate_star (c : Char) (m : Nat)
    (h : (c == '*') = false) :
    ([c].isSuffixOf (List.replicate (m + 1) '*')) = false := by
  show ([c].reverse.isPrefixOf (List.replicate (m + 1) '*').reverse) = false
  rw [List.reverse_replicate, List.reverse_singleton, List.replicate_succ]
  exact not_isPrefixOf_star c [] _ h

/-- A string of two or more asterisks translates to the empty regex. -/
theorem patternToRegex_replicate_star (m : Nat) :
    PatternToRegex (List.replicate (m + 2) '*') = [] := by
  have hne : ¬(List.replicate (m + 2) '*' = ([] : Str) ∨
      List.replicate (m + 2) '*' = (['*'] : Str)) := by
    intro hor
    rcases hor with h | h
    · have := congrArg List.length h
      simp at this
    · have := congrArg List.length h
      simp at this
  have e1 : (['|', '|'].isPrefixOf (List.replicate (m + 2) '*')) = false := by
    rw [List.replicate_succ]
    exact not_isPrefixOf_star '|' ['|'] _ (by decide)
  have e2 : (['|'].isPrefixOf (List.replicate (m + 2) '*')) = false := by
    rw [List.replicate_succ]
    exact not_isPrefixOf_star '|' [] _ (by decide)
  have e3 : (['|'].isSuffixOf (List.replicate (m + 2) '*')) = false :=
    singleton_isSuffixOf_replicate_star '|' (m + 1) (by decide)
  have e4 : (['/'].isPrefixOf (List.replicate (m + 2) '*')) = false := by
    rw [List.replicate_succ]
    exact not_isPrefixOf_star '/' [] _ (by decide)
  simp only [PatternToRegex, hne, if_false, e1, e2, e3, e4,
    Bool.false_eq_true, if_false, Bool.not_false, Bool.true_and,
    escapePlainChars_replicate_star, replaceSeparators_replicate_star,
    dropDanglingAsterisks_replicate_star]
  simp [collapseAsterisks, collapseAsterisksAux]

/-- `PatternEndsWithSeparator` is false on a string of asterisks. -/
theorem patternEndsWithSeparator_replicate_star (m : Nat) :
    PatternEndsWithSeparator (List.replicate (m + 2) '*') = false := by
  have e3 : (['|'].isSuffixOf (List.replicate (m + 2) '*')) = false :=
    singleton_isSuffixOf_replicate_star '|' (m + 1) (by decide)
  have e5 : (['^'].isSuffixOf (List.replicate (m + 2) '*')) = false :=
    singleton_isSuffixOf_replicate_star '^' (m + 1) (by decide)
  unfold PatternEndsWithSeparator trimSuffix
  rw [e3]
  simp [e5]

/-- C10, amended: every pattern consisting of two or more asterisks (and
nothing else) translates to the empty regex, not `.*`; the empty regex
passes validation (Go's `regexp.Compile` accepts the empty string); and a
network filter with such a pattern emits exactly one rule, whose
`urlFilter` is the empty string.  (The converse — that only the empty
pattern and `*` map to `.*` — fails, see the counterexample.) -/
theorem multi_asterisk_empty_regex (n : Nat) (h : 2 ≤ n) :
    PatternToRegex (List.replicate n '*') = [] ∧
    PatternToRegex (List.replicate n '*') ≠ ".*".data ∧
    ValidateRegex true [] = true ∧
    (convertNetwork (fun _ => true)
      { type := .network, raw := List.replicate n '*',
        pattern := List.replicate n '*' } false) =
      ([networkRule
          { type := .network, raw := List.replicate n '*',
            pattern := List.replicate n '*' } false [] [] []], []) := by
  obtain ⟨m, rfl⟩ : ∃ m, n = m + 2 := ⟨n - 2, by omega⟩
  have h0 := patternToRegex_replicate_star m
  refine ⟨h0, by rw [h0]; decide, by decide, ?_⟩
  have hsep := patternEndsWithSeparator_replicate_star m
  unfold convertNetwork
  simp only [h0, hsep]
  rfl

/-- C10, witness: the amended theorem at the concrete pattern `**`. -/
theorem multi_asterisk_empty_regex_witness :
    2 ≤ 2 ∧
    (PatternToRegex (List.replicate 2 '*') = [] ∧
     PatternToRegex (List.replicate 2 '*') ≠ ".*".data ∧
     ValidateRegex true [] = true ∧
     (convertNetwork (fun _ => true)
       { type := .network, raw := List.replicate 2 '*',
         pattern := List.replicate 2 '*' } false) =
       ([networkRule
           { type := .network, raw := List.replicate 2 '*',
             pattern := List.replicate 2 '*' } false [] [] []], [])) :=
  ⟨by decide, multi_asterisk_empty_regex 2 (by decide)⟩

end UBW
